import Mathlib

/-!
Shallow embedding of the studio-ui preview path utilities
(`getPathFromPreviewURL`, `getPreviewURLFromPath`, `withoutIndex`, `withIndex`,
`itemsFromPath`, `getIndividualPaths`) and of the `PreviewSearchPanel`
orchestration (`onSearch`, `onDragStart`, the `takeUntil(unMount$)` teardown).
JS strings are modelled as `List Char`; lookup tables as functions into
`Option`; thrown errors and failing requests as `Except`.
-/

/-- JS `a ?? b` null-coalescing between possibly-undefined lookup results. -/
def coalesce {α : Type} (x y : Option α) : Option α :=
  match x with
  | some a => some a
  | none => y

/-- Whether `pat` occurs as a contiguous substring of the second argument
(JS `indexOf(pat) !== -1`). -/
def hasSubstr (pat : List Char) : List Char → Bool
  | [] => pat.isEmpty
  | c :: rest => pat.isPrefixOf (c :: rest) || hasSubstr pat rest

/-- JS `String.prototype.replace` with a plain-string pattern: only the first
occurrence of `pat` is replaced by `r`; an empty pattern matches at index 0. -/
def replaceFirst : List Char → List Char → List Char → List Char
  | [], pat, r => if pat.isEmpty then r else []
  | c :: rest, pat, r =>
    if pat.isEmpty then r ++ c :: rest
    else if pat.isPrefixOf (c :: rest) then r ++ (c :: rest).drop pat.length
    else c :: replaceFirst rest pat r

/-- Index of the first occurrence of character `c` (JS `indexOf` with a
one-character pattern), `none` standing for -1. -/
def firstIdx (c : Char) : List Char → Option Nat
  | [] => none
  | x :: rest => if x = c then some 0 else (firstIdx c rest).map (· + 1)

/-- JS `String.prototype.split` on a one-character separator. -/
def splitChar (sep : Char) : List Char → List (List Char)
  | [] => [[]]
  | c :: rest =>
    match splitChar sep rest with
    | [] => [[]]
    | h :: t => if c = sep then [] :: h :: t else (c :: h) :: t

/-- The `/index.xml` suffix (`/${indexDocumentName}`). -/
def indexXml : List Char := "/index.xml".data

/-- The fixed site-content root prepended by `getPathFromPreviewURL`. -/
def siteWebsite : List Char := "/site/website".data

/-- The rendered document extension rewritten by `getPathFromPreviewURL`. -/
def htmlExt : List Char := ".html".data

/-- The source document extension. -/
def xmlExt : List Char := ".xml".data

/-- `withoutIndex` from the source: `path.replace('/index.xml', '')`. Note that
JS string `replace` removes only the first occurrence, wherever it is. -/
def withoutIndex (path : List Char) : List Char := replaceFirst path indexXml []

/-- `withIndex` from the source: `` `${withoutIndex(path)}/index.xml` ``. -/
def withIndex (path : List Char) : List Char := withoutIndex path ++ indexXml

/-- One `if (p.indexOf(c) > 0) p = p.split(c)[0]` step of
`getPathFromPreviewURL`: truncate before the first occurrence of `c`, but only
when that occurrence is at a strictly positive index. -/
def cutAtChar (c : Char) (s : List Char) : List Char :=
  match firstIdx c s with
  | some i => if 0 < i then s.take i else s
  | none => s

/-- `getPathFromPreviewURL` from the source: strip at `?`, `#`, `;` (positive
index only), rewrite the first `.html` to `.xml`, append `index.xml` (with a
separator unless the path already ends in `/`) when the result nowhere contains
`.xml`, and prefix the fixed site-content root. -/
def getPathFromPreviewURL (previewURL : List Char) : List Char :=
  let p1 := cutAtChar '?' previewURL
  let p2 := cutAtChar '#' p1
  let p3 := cutAtChar ';' p2
  let p4 := replaceFirst p3 htmlExt xmlExt
  let p5 := if hasSubstr xmlExt p4 then p4
            else (if p4.getLast? = some '/' then p4 else p4 ++ ['/']) ++ "index.xml".data
  siteWebsite ++ p5

/-- `getPreviewURLFromPath` from the source:
`withoutIndex(path).replace('/site/website', '')`. -/
def getPreviewURLFromPath (path : List Char) : List Char :=
  replaceFirst (withoutIndex path) siteWebsite []

/-- Prefix match of a regex-literal fragment in which every `.` is an unescaped
wildcard and all other characters are literal. The root paths interpolated into
the `itemsFromPath` regex behave this way. -/
def dotMatch : List Char → List Char → Bool
  | [], _ => true
  | _ :: _, [] => false
  | p :: ps, c :: cs => (p = '.' || p = c) && dotMatch ps cs

/-- Does some alternative of the `itemsFromPath` regex
`` `${rootWithIndex}|${rootWithoutIndex}|\/index\.xml|/$` `` match at the start
of `s`?  The template literal drops the backslashes before `/` and `.`, so the
third alternative reaches `new RegExp` as `/index.xml` whose dot is a
wildcard; the interpolated roots likewise match with `.`-wildcards, and `/$`
matches a final slash. -/
def altMatches (p1 p2 s : List Char) : Bool :=
  dotMatch p1 s || dotMatch p2 s || dotMatch indexXml s || decide (s = ['/'])

/-- No alternative of the `itemsFromPath` regex matches at any position of `s`. -/
def noAltMatches (p1 p2 : List Char) : List Char → Bool
  | [] => true
  | c :: rest => !altMatches p1 p2 (c :: rest) && noAltMatches p1 p2 rest

/-- Scanner for `path.replace(regExp, '')` with the global ordered alternation
`p1|p2|\/index\.xml|/$`: at each position try the alternatives in order; drop a
nonempty match, keep the character on an empty match, otherwise keep the
character and move on.  The template literal drops the backslashes, so the
third alternative's dot is a regex wildcard (`dotMatch`), like the dots of the
interpolated roots.  Every step consumes at least one character, so a fuel of
the string length always suffices; the fuel-0 arm is never reached. -/
def stripAltsAux (p1 p2 : List Char) : Nat → List Char → List Char
  | _, [] => []
  | 0, _ => []
  | fuel + 1, c :: rest =>
    if dotMatch p1 (c :: rest) then
      if p1.isEmpty then c :: stripAltsAux p1 p2 fuel rest
      else stripAltsAux p1 p2 fuel (rest.drop (p1.length - 1))
    else if dotMatch p2 (c :: rest) then
      if p2.isEmpty then c :: stripAltsAux p1 p2 fuel rest
      else stripAltsAux p1 p2 fuel (rest.drop (p2.length - 1))
    else if dotMatch indexXml (c :: rest) then
      stripAltsAux p1 p2 fuel (rest.drop (indexXml.length - 1))
    else if c = '/' ∧ rest = [] then []
    else c :: stripAltsAux p1 p2 fuel rest

/-- `path.replace(regExp, '')` for the `itemsFromPath` regex. -/
def stripAlts (p1 p2 s : List Char) : List Char := stripAltsAux p1 p2 s.length s

/-- The `map` with the mutable `accum` inside `itemsFromPath`: each folder
segment extends the accumulated path, which is looked up as-given first and in
explicit (`withIndex`) form as fallback. -/
def accumLookup {α : Type} (items : List Char → Option α) :
    List Char → List (List Char) → List (Option α)
  | _, [] => []
  | accum, folder :: rest =>
    coalesce (items (accum ++ '/' :: folder)) (items (withIndex (accum ++ '/' :: folder)))
      :: accumLookup items (accum ++ '/' :: folder) rest

/-- `itemsFromPath` from the source, over a lookup table modelled as a function
from path keys to optional items.  Absent slots (`undefined` in JS) are
`none`. -/
def itemsFromPath {α : Type} (path root : List Char) (items : List Char → Option α) :
    List (Option α) :=
  let rootWithIndex := withIndex root
  let rootWithoutIndex := withoutIndex root
  let rootItem := coalesce (items rootWithIndex) (items root)
  if path = rootWithIndex ∨ path = root then [rootItem]
  else
    rootItem ::
      accumLookup items rootWithoutIndex
        ((splitChar '/' (stripAlts rootWithIndex rootWithoutIndex path)).drop 1)

/-- The strip `path.replace(/^\/|\/$/g, '')` in `getIndividualPaths`: one
leading and one trailing slash are removed. -/
def stripEdgeSlashes (s : List Char) : List Char :=
  let s1 := match s with
    | '/' :: rest => rest
    | other => other
  match s1.getLast? with
  | some '/' => s1.dropLast
  | _ => s1

/-- JS `Array.prototype.join('/')`. -/
def joinSlash : List (List Char) → List Char
  | [] => []
  | [g] => g
  | g :: rest => g ++ '/' :: joinSlash rest

/-- The do/while loop of `getIndividualPaths`: push `'/' + array.join('/')`,
pop, repeat while the array is nonempty.  The loop body runs once plus once per
pop, so a fuel of the array length plus one always covers it; the fuel-0 arm is
never reached. -/
def buildPathsAux : Nat → List (List Char) → List (List Char)
  | 0, _ => []
  | fuel + 1, arr =>
    ('/' :: joinSlash arr) ::
      (if arr.length ≤ 1 then [] else buildPathsAux fuel arr.dropLast)

/-- The paths collected by the do/while loop of `getIndividualPaths`. -/
def buildPaths (arr : List (List Char)) : List (List Char) :=
  buildPathsAux (arr.length + 1) arr

/-- JS `Array.prototype.indexOf` over the collected paths, `none` for -1. -/
def idxInList (x : List Char) : List (List Char) → Option Nat
  | [] => none
  | y :: rest => if y = x then some 0 else (idxInList x rest).map (· + 1)

/-- `getIndividualPaths` from the source; `rootPath` mirrors the optional
second parameter, and `slice(0, indexOf(...) + 1)` is `take (i + 1)` (taking
nothing when the index is -1). -/
def getIndividualPaths (path : List Char) (rootPath : Option (List Char)) :
    List (List Char) :=
  let paths := buildPaths (splitChar '/' (stripEdgeSlashes path))
  match rootPath with
  | none => paths
  | some rp =>
    match idxInList (withIndex rp) paths with
    | some i => paths.take (i + 1)
    | none =>
      match idxInList rp paths with
      | some i => paths.take (i + 1)
      | none => paths.take 0

/-- Characters whose regex meaning the literal/`.`-wildcard embedding of the
`itemsFromPath` alternation cannot represent; roots interpolated into that
regex are modelled faithfully only when free of these. -/
def regexSpecials : List Char :=
  ['*', '+', '?', '(', ')', '[', ']', '|', '^', '$', '\\', Char.ofNat 123, Char.ofNat 125]

/-- A root path whose interpolation into the `itemsFromPath` regex is covered
by the `dotMatch` embedding. -/
def regexSafe (s : List Char) : Bool := s.all (fun c => !regexSpecials.contains c)

/-- The `'/'`-separated concatenation of a sequence of path segments. -/
def joinSegs (segs : List (List Char)) : List Char :=
  (segs.map (fun g => '/' :: g)).flatten

/-- `item.type === 'Component'` comparison value. -/
def COMPONENT : List Char := "Component".data

/-- A search hit as consumed by the panel (`models/Search.SearchItem`): only
the fields the panel logic reads. -/
structure SearchItem where
  path : List Char
  itemType : List Char

/-- A hydrated content instance (`models/ContentInstance`): the
`craftercms.path` and `craftercms.contentTypeId` fields the panel reads. -/
structure ContentInstance where
  path : List Char
  contentTypeId : List Char

/-- A thrown JS error; dereferencing a field of `undefined` raises a
`TypeError`. -/
inductive JsError where
  | typeError

/-- Messages published on the host-to-guest bus by the drag handlers. -/
inductive BusMessage (β : Type) where
  | componentInstanceDragStarted (inst : ContentInstance) (contentType : Option β)
  | assetDragStarted (item : SearchItem)

/-- `onDragStart` from `PreviewSearchPanel`: for a component-typed item the
hydrated instance is read from `contentInstanceLookup` and then dereferenced
(`instance.craftercms.contentTypeId`) while the payload is built, so an absent
instance raises a `TypeError` before anything reaches the bus; otherwise the
message is published.  The result is the list of published messages or the
raised error. -/
def onDragStart {β : Type} (contentInstanceLookup : List Char → Option ContentInstance)
    (contentTypesLookup : List Char → Option β) (item : SearchItem) :
    Except JsError (List (BusMessage β)) :=
  if item.itemType = COMPONENT then
    match contentInstanceLookup item.path with
    | none => Except.error JsError.typeError
    | some inst =>
      Except.ok
        [BusMessage.componentInstanceDragStarted inst (contentTypesLookup inst.contentTypeId)]
  else Except.ok [BusMessage.assetDragStarted item]

/-- A failed API response, as delivered to the `subscribe` error handler. -/
structure ApiError where
  code : Nat

/-- The slice of a `SearchResult` the orchestration reads. -/
structure SearchResultModel where
  items : List SearchItem

/-- The component-typed items of a result (`item.type === 'Component'`). -/
def componentItems (l : List SearchItem) : List SearchItem :=
  l.filter (fun it => decide (it.itemType = COMPONENT))

/-- Paths for which `onSearch` issues secondary `getContentInstance`
requests: one per component-typed item, in result order. -/
def secondaryRequestPaths (l : List SearchItem) : List (List Char) :=
  (componentItems l).map SearchItem.path

/-- rxjs `forkJoin` over the settled outcomes of the issued requests: succeeds
with all values once every request has resolved, fails if any failed. -/
def forkJoinE {ε α : Type} : List (Except ε α) → Except ε (List α)
  | [] => Except.ok []
  | r :: rs =>
    match r with
    | Except.error e => Except.error e
    | Except.ok a =>
      match forkJoinE rs with
      | Except.error e => Except.error e
      | Except.ok tail => Except.ok (a :: tail)

/-- The `switchMap` body of `onSearch`: collect one `getContentInstance`
request per component item; with at least one request, `forkJoin` them and pair
the instances with the result; with none, short-circuit to
`of({ result, contentInstances: null })`. -/
def onSearchCombine (result : SearchResultModel)
    (fetch : List Char → Except ApiError ContentInstance) :
    Except ApiError (SearchResultModel × Option (List ContentInstance)) :=
  let requests := (secondaryRequestPaths result.items).map fetch
  if requests.length ≠ 0 then
    match forkJoinE requests with
    | Except.error e => Except.error e
    | Except.ok contentInstances => Except.ok (result, some contentInstances)
  else Except.ok (result, none)

/-- `createLookupTable(instances, 'craftercms.path')`: key each instance by its
path, later entries overwriting earlier ones. -/
def createLookupTable (cs : List ContentInstance) : List Char → Option ContentInstance :=
  cs.foldl (fun acc c => fun p => if p = c.path then some c else acc p) (fun _ => none)

/-- The panel component state written by the `onSearch` subscription handlers,
plus the mounted flag governing `takeUntil(unMount$)`. -/
structure PanelState where
  searchResults : Option SearchResultModel
  contentInstanceLookup : List Char → Option ContentInstance
  error : Option ApiError
  unmounted : Bool

/-- The `subscribe` handlers of `onSearch`: on a successful combined response
`setSearchResults` fires and `setContentInstanceLookup` fires only when
`contentInstances` is non-null; on a failure only `setError` fires. -/
def applyResponse (s : PanelState)
    (r : Except ApiError (SearchResultModel × Option (List ContentInstance))) : PanelState :=
  match r with
  | Except.ok (result, contentInstances) =>
    { s with
      searchResults := some result
      contentInstanceLookup :=
        match contentInstances with
        | some cs => createLookupTable cs
        | none => s.contentInstanceLookup }
  | Except.error e => { s with error := some e }

/-- Events reaching the `onSearch` pipeline: the outer search observable
emitting a result, an inner `forkJoin` of secondary fetches (subscribed
earlier by `switchMap`) settling, or the `useMount` teardown emitting on
`unMount$`. -/
inductive PanelEvent where
  | searchEmits (result : SearchResultModel)
  | innerSettles (fr : Except ApiError (List ContentInstance))
  | unmountOccurs

/-- The subscription pipeline's state: the component state plus the inner
`forkJoin` of secondary fetches that `switchMap` currently has subscribed
(carrying the search result it was projected from), if any. -/
structure PanelMachine where
  panel : PanelState
  pendingInner : Option SearchResultModel

/-- One step of `search(...).pipe(takeUntil(unMount$), switchMap(...))
.subscribe(...)`.  Because `takeUntil` sits before `switchMap`, an `unMount$`
emission completes the outer stream — a search response arriving afterwards is
never delivered to `switchMap` — but it does not tear down an inner
`forkJoin` that `switchMap` already subscribed: that inner's late settlement
still reaches the subscribe handlers.  An outer emission with no
component-typed items short-circuits synchronously through `of`, otherwise
`switchMap` subscribes the `forkJoin` of the secondary fetches, replacing any
previous inner. -/
def stepPanel (m : PanelMachine) (e : PanelEvent) : PanelMachine :=
  match e with
  | PanelEvent.unmountOccurs =>
    { m with panel := { m.panel with unmounted := true } }
  | PanelEvent.searchEmits result =>
    if m.panel.unmounted then m
    else if (componentItems result.items).length = 0 then
      { panel := applyResponse m.panel (Except.ok (result, none)), pendingInner := none }
    else { m with pendingInner := some result }
  | PanelEvent.innerSettles fr =>
    match m.pendingInner with
    | none => m
    | some result =>
      { panel := applyResponse m.panel
          (match fr with
           | Except.error e => Except.error e
           | Except.ok cs => Except.ok (result, some cs)),
        pendingInner := none }

/-! Helper lemmas about the JS string primitives. -/

lemma hasSubstr_isInfix_iff {pat s : List Char} : hasSubstr pat s = true ↔ pat <:+: s := by
  induction s with
  | nil => simp [hasSubstr, List.isEmpty_iff, List.infix_nil]
  | cons c cs ih =>
    simp only [hasSubstr, Bool.or_eq_true, List.isPrefixOf_iff_prefix, ih, List.infix_cons_iff]

lemma hasSubstr_append_left {pat a : List Char} (b : List Char)
    (h : hasSubstr pat a = true) : hasSubstr pat (a ++ b) = true := by
  rw [hasSubstr_isInfix_iff] at h ⊢
  exact h.trans (List.prefix_append a b).isInfix

lemma hasSubstr_append_right (a : List Char) {pat b : List Char}
    (h : hasSubstr pat b = true) : hasSubstr pat (a ++ b) = true := by
  rw [hasSubstr_isInfix_iff] at h ⊢
  exact h.trans (List.suffix_append a b).isInfix

lemma hasSubstr_of_sub_pattern {pat s : List Char} (u v : List Char)
    (h : hasSubstr (u ++ pat ++ v) s = true) : hasSubstr pat s = true := by
  rw [hasSubstr_isInfix_iff] at h ⊢
  have hmid : pat <:+: u ++ pat ++ v := ⟨u, v, rfl⟩
  exact hmid.trans h

lemma hasSubstr_of_parts {pat t a : List Char} (h1 : pat <+: t) (h2 : t <:+ a) :
    hasSubstr pat a = true := by
  rw [hasSubstr_isInfix_iff]
  exact h1.isInfix.trans h2.isInfix

lemma replaceFirst_of_not_hasSubstr {pat s : List Char} (r : List Char)
    (h : hasSubstr pat s = false) : replaceFirst s pat r = s := by
  induction s with
  | nil =>
    simp only [hasSubstr] at h
    simp [replaceFirst, h]
  | cons c cs ih =>
    simp only [hasSubstr, Bool.or_eq_false_iff] at h
    obtain ⟨hp, hrest⟩ := h
    have hne : pat.isEmpty = false := by
      cases hpat : pat with
      | nil => subst hpat; simp [List.isPrefixOf] at hp
      | cons x xs => rfl
    simp [replaceFirst, hne, hp, ih hrest]

lemma replaceFirst_at_start {pat : List Char} (x r : List Char) (h : pat ≠ []) :
    replaceFirst (pat ++ x) pat r = r ++ x := by
  cases pat with
  | nil => exact absurd rfl h
  | cons p ps =>
    have hpre : (p :: ps).isPrefixOf (p :: (ps ++ x)) = true := by
      rw [List.isPrefixOf_iff_prefix]
      exact List.prefix_append (p :: ps) x
    show replaceFirst (p :: (ps ++ x)) (p :: ps) r = r ++ x
    simp only [replaceFirst, List.append_eq, List.isEmpty_cons, Bool.false_eq_true, if_false,
      hpre, if_true]
    rw [← List.cons_append, List.drop_left]

lemma hasSubstr_split {pat a b : List Char} (h : hasSubstr pat (a ++ b) = true) :
    (∃ t, t <:+ a ∧ t ≠ [] ∧ pat <+: t ++ b) ∨ hasSubstr pat b = true := by
  induction a with
  | nil => right; simpa using h
  | cons c cs ih =>
    rw [List.cons_append] at h
    simp only [hasSubstr, Bool.or_eq_true, List.isPrefixOf_iff_prefix] at h
    rcases h with h | h
    · left
      exact ⟨c :: cs, List.suffix_refl _, List.cons_ne_nil c cs, by simpa using h⟩
    · rcases ih h with ⟨t, hts, htne, htp⟩ | h2
      · exact Or.inl ⟨t, hts.trans (List.suffix_cons c cs), htne, htp⟩
      · exact Or.inr h2

lemma not_prefix_of_take_eq {pat s t : List Char}
    (hst : s.take pat.length = t.take pat.length) (h : ¬ pat <+: s) : ¬ pat <+: t := by
  intro hp
  apply h
  rw [List.prefix_iff_eq_take] at hp ⊢
  rw [hst]
  exact hp

lemma take_eq_within {pat : List Char} (a' b : List Char) (c : Char) (hpat : pat ≠ []) :
    (c :: (a' ++ (pat ++ b))).take pat.length = ((c :: a') ++ pat.dropLast).take pat.length := by
  cases pat with
  | nil => exact absurd rfl hpat
  | cons p ps =>
    show (c :: (a' ++ ((p :: ps) ++ b))).take (ps.length + 1)
      = (c :: (a' ++ (p :: ps).dropLast)).take (ps.length + 1)
    rw [List.take_succ_cons, List.take_succ_cons]
    simp only [List.take_append_eq_append_take]
    congr 1
    have hz : ps.length - a'.length - (p :: ps).length = 0 := by
      simp only [List.length_cons]
      omega
    rw [hz, List.take_zero, List.append_nil]
    rw [List.dropLast_eq_take, List.take_take]
    have hmin : min (ps.length - a'.length) ((p :: ps).length - 1) = ps.length - a'.length := by
      simp only [List.length_cons, Nat.add_sub_cancel]
      omega
    rw [hmin]

lemma replaceFirst_first_occurrence {pat : List Char} (a b r : List Char) (hpat : pat ≠ [])
    (h : hasSubstr pat (a ++ pat.dropLast) = false) :
    replaceFirst (a ++ (pat ++ b)) pat r = a ++ (r ++ b) := by
  induction a with
  | nil => simpa using replaceFirst_at_start b r hpat
  | cons c a' ih =>
    simp only [List.cons_append, hasSubstr, Bool.or_eq_false_iff] at h
    obtain ⟨hp, hrest⟩ := h
    have hnps : ¬ pat <+: (c :: a') ++ pat.dropLast := by
      intro hh
      rw [← List.isPrefixOf_iff_prefix] at hh
      rw [List.cons_append] at hh
      simp [hh] at hp
    have hnp : ¬ pat <+: c :: (a' ++ (pat ++ b)) :=
      not_prefix_of_take_eq (take_eq_within a' b c hpat).symm hnps
    have hne : pat.isEmpty = false := by
      cases pat with
      | nil => exact absurd rfl hpat
      | cons x xs => rfl
    show replaceFirst (c :: (a' ++ (pat ++ b))) pat r = c :: (a' ++ (r ++ b))
    simp only [replaceFirst, List.append_eq, hne, Bool.false_eq_true, if_false]
    rw [if_neg (by rw [List.isPrefixOf_iff_prefix]; exact hnp)]
    rw [ih hrest]

lemma prefix_of_append_long {pat t b : List Char} (hlen : pat.length ≤ t.length)
    (h : pat <+: t ++ b) : pat <+: t := by
  rw [List.prefix_iff_eq_take] at h ⊢
  rw [List.take_append_of_le_length hlen] at h
  exact h

lemma prefix_of_append_short {pat t b : List Char} (hlen : t.length < pat.length)
    (h : pat <+: t ++ b) : t = pat.take t.length ∧ pat.drop t.length <+: b := by
  rw [List.prefix_iff_eq_take] at h
  rw [List.take_append_eq_append_take] at h
  rw [List.take_of_length_le (le_of_lt hlen)] at h
  constructor
  · rw [h, List.take_left]
  · rw [h, List.drop_left]
    exact List.take_prefix _ _

lemma hasSubstr_of_isPrefix {pat s : List Char} (h : pat <+: s) : hasSubstr pat s = true := by
  rw [hasSubstr_isInfix_iff]
  exact h.isInfix

lemma hasSubstr_false_of_append_left {pat base : List Char} (x : List Char)
    (h : hasSubstr pat (base ++ x) = false) : hasSubstr pat base = false := by
  cases hb : hasSubstr pat base with
  | false => rfl
  | true => rw [hasSubstr_append_left x hb] at h; simp at h

lemma withoutIndex_of_clean {p : List Char} (h : hasSubstr indexXml p = false) :
    withoutIndex p = p := replaceFirst_of_not_hasSubstr [] h

lemma withoutIndex_append_indexXml {base : List Char}
    (h : hasSubstr indexXml (base ++ indexXml.dropLast) = false) :
    withoutIndex (base ++ indexXml) = base := by
  have hmain : replaceFirst (base ++ (indexXml ++ [])) indexXml [] = base ++ ([] ++ []) :=
    replaceFirst_first_occurrence base [] [] (by decide) h
  simpa using hmain

lemma no_xmlExt_under_site {s : List Char} (hxml : hasSubstr xmlExt s = false) :
    hasSubstr xmlExt (siteWebsite ++ s) = false := by
  cases hfull : hasSubstr xmlExt (siteWebsite ++ s) with
  | false => rfl
  | true =>
    exfalso
    rcases hasSubstr_split hfull with ⟨t, hts, htne, htp⟩ | hb
    · rcases Nat.lt_or_ge t.length xmlExt.length with hlen | hlen
      · obtain ⟨ht, _⟩ := prefix_of_append_short hlen htp
        have h0 : t.length ≠ 0 := fun hc => htne (List.length_eq_zero.mp hc)
        have hx4 : xmlExt.length = 4 := by decide
        have h4 : t.length = 1 ∨ t.length = 2 ∨ t.length = 3 := by omega
        have hsuf : t.isSuffixOf siteWebsite = true := List.isSuffixOf_iff_suffix.mpr hts
        rcases h4 with h1 | h1 | h1 <;>
          · rw [h1] at ht
            rw [ht] at hsuf
            exact absurd hsuf (by decide)
      · have hpt : xmlExt <+: t := prefix_of_append_long hlen htp
        have hw : hasSubstr xmlExt siteWebsite = true := hasSubstr_of_parts hpt hts
        exact absurd hw (by decide)
    · rw [hxml] at hb
      simp at hb

lemma no_xmlExt_with_tail {s : List Char} (hxml : hasSubstr xmlExt s = false) :
    hasSubstr xmlExt ((siteWebsite ++ s) ++ indexXml.dropLast) = false := by
  cases hfull : hasSubstr xmlExt ((siteWebsite ++ s) ++ indexXml.dropLast) with
  | false => rfl
  | true =>
    exfalso
    rcases hasSubstr_split hfull with ⟨t, hts, htne, htp⟩ | hb
    · rcases Nat.lt_or_ge t.length xmlExt.length with hlen | hlen
      · obtain ⟨_, hdrop⟩ := prefix_of_append_short hlen htp
        have h0 : t.length ≠ 0 := fun hc => htne (List.length_eq_zero.mp hc)
        have hx4 : xmlExt.length = 4 := by decide
        have h4 : t.length = 1 ∨ t.length = 2 ∨ t.length = 3 := by omega
        rcases h4 with h1 | h1 | h1 <;>
          · rw [h1] at hdrop
            exact absurd hdrop (by decide)
      · have hpt : xmlExt <+: t := prefix_of_append_long hlen htp
        have hw : hasSubstr xmlExt (siteWebsite ++ s) = true := hasSubstr_of_parts hpt hts
        rw [no_xmlExt_under_site hxml] at hw
        simp at hw
    · exact absurd hb (by decide)

lemma no_indexXml_before_end {s : List Char} (hxml : hasSubstr xmlExt s = false) :
    hasSubstr indexXml ((siteWebsite ++ s) ++ indexXml.dropLast) = false := by
  cases hfull : hasSubstr indexXml ((siteWebsite ++ s) ++ indexXml.dropLast) with
  | false => rfl
  | true =>
    exfalso
    have hshape : ("/index".data ++ xmlExt ++ [] : List Char) = indexXml := by decide
    have hx : hasSubstr xmlExt ((siteWebsite ++ s) ++ indexXml.dropLast) = true :=
      hasSubstr_of_sub_pattern "/index".data [] (by rw [hshape]; exact hfull)
    rw [no_xmlExt_with_tail hxml] at hx
    simp at hx

lemma firstIdx_eq_none_iff {c : Char} {s : List Char} : firstIdx c s = none ↔ c ∉ s := by
  induction s with
  | nil => simp [firstIdx]
  | cons x rest ih =>
    by_cases hx : x = c
    · subst hx
      simp [firstIdx]
    · have hcx : c ≠ x := fun hh => hx hh.symm
      simp [firstIdx, hx, Option.map_eq_none', ih, hcx]

lemma cutAtChar_of_not_mem {c : Char} {s : List Char} (h : c ∉ s) : cutAtChar c s = s := by
  unfold cutAtChar
  rw [firstIdx_eq_none_iff.mpr h]

lemma firstIdx_not_mem_take {c : Char} {s : List Char} {i : Nat}
    (h : firstIdx c s = some i) : c ∉ s.take i := by
  induction s generalizing i with
  | nil => simp [firstIdx] at h
  | cons x rest ih =>
    by_cases hx : x = c
    · subst hx
      simp [firstIdx] at h
      subst h
      simp
    · simp only [firstIdx, if_neg hx] at h
      cases hr : firstIdx c rest with
      | none => rw [hr] at h; simp at h
      | some j =>
        rw [hr] at h
        simp only [Option.map_some', Option.some.injEq] at h
        subst h
        rw [List.take_succ_cons]
        intro hmem
        rcases List.mem_cons.mp hmem with hh | hh
        · exact hx hh.symm
        · exact ih hr hh

lemma firstIdx_zero_head {c : Char} {s : List Char} (h : firstIdx c s = some 0) :
    s.head? = some c := by
  cases s with
  | nil => simp [firstIdx] at h
  | cons x rest =>
    by_cases hx : x = c
    · subst hx; rfl
    · simp only [firstIdx, if_neg hx] at h
      cases hr : firstIdx c rest with
      | none => rw [hr] at h; simp at h
      | some j => rw [hr] at h; simp at h

lemma cutAtChar_not_mem_self {c : Char} {s : List Char} (h : s.head? ≠ some c) :
    c ∉ cutAtChar c s := by
  unfold cutAtChar
  cases hf : firstIdx c s with
  | none => exact firstIdx_eq_none_iff.mp hf
  | some i =>
    cases i with
    | zero => exact absurd (firstIdx_zero_head hf) h
    | succ j =>
      show c ∉ (if 0 < j + 1 then s.take (j + 1) else s)
      rw [if_pos (Nat.succ_pos j)]
      exact firstIdx_not_mem_take hf

lemma cutAtChar_subset {c : Char} (s : List Char) : cutAtChar c s ⊆ s := by
  unfold cutAtChar
  cases firstIdx c s with
  | none => exact fun _ h => h
  | some i =>
    show (if 0 < i then s.take i else s) ⊆ s
    by_cases hi : 0 < i
    · rw [if_pos hi]; exact List.take_subset i s
    · rw [if_neg hi]; exact fun _ h => h

lemma cutAtChar_head {c : Char} (s : List Char) : (cutAtChar c s).head? = s.head? := by
  unfold cutAtChar
  cases hf : firstIdx c s with
  | none => rfl
  | some i =>
    show (if 0 < i then s.take i else s).head? = s.head?
    by_cases hi : 0 < i
    · rw [if_pos hi]
      cases s with
      | nil => simp
      | cons x rest =>
        cases i with
        | zero => simp at hi
        | succ j => rw [List.take_succ_cons]; rfl
    · rw [if_neg hi]

lemma replaceFirst_mem {x : Char} {s pat r : List Char}
    (h : x ∈ replaceFirst s pat r) : x ∈ s ∨ x ∈ r := by
  induction s with
  | nil =>
    simp only [replaceFirst] at h
    by_cases hp : pat.isEmpty = true
    · rw [if_pos hp] at h; exact Or.inr h
    · rw [if_neg hp] at h; simp at h
  | cons c rest ih =>
    simp only [replaceFirst] at h
    by_cases hp : pat.isEmpty = true
    · rw [if_pos hp] at h
      rcases List.mem_append.mp h with h | h
      · exact Or.inr h
      · exact Or.inl h
    · rw [if_neg hp] at h
      by_cases hpre : pat.isPrefixOf (c :: rest) = true
      · rw [if_pos hpre] at h
        rcases List.mem_append.mp h with h | h
        · exact Or.inr h
        · exact Or.inl (List.drop_subset _ _ h)
      · rw [if_neg hpre] at h
        rcases List.mem_cons.mp h with h | h
        · exact Or.inl (h ▸ List.mem_cons_self c rest)
        · rcases ih h with h | h
          · exact Or.inl (List.mem_cons_of_mem c h)
          · exact Or.inr h

lemma getLast?_cons_append_of_ne_nil (c : Char) (g x : List Char) (hx : x ≠ []) :
    (c :: (g ++ x)).getLast? = x.getLast? := by
  rw [show (c :: (g ++ x) : List Char) = (c :: g) ++ x from rfl]
  exact List.getLast?_append_of_ne_nil _ hx

lemma joinSegs_getLast {segs : List (List Char)}
    (h : ∀ g ∈ segs, g ≠ [] ∧ '/' ∉ g) : (joinSegs segs).getLast? ≠ some '/' := by
  induction segs with
  | nil => simp [joinSegs]
  | cons g rest ih =>
    have hg := h g (List.mem_cons_self g rest)
    have hrest : ∀ g2 ∈ rest, g2 ≠ [] ∧ '/' ∉ g2 :=
      fun g2 hm => h g2 (List.mem_cons_of_mem g hm)
    have hjoin : joinSegs (g :: rest) = ('/' :: g) ++ joinSegs rest := by
      simp [joinSegs]
    rw [hjoin]
    cases hr : joinSegs rest with
    | nil =>
      rw [List.append_nil]
      rw [show ('/' :: g : List Char) = ['/'] ++ g from rfl,
        List.getLast?_append_of_ne_nil _ hg.1]
      intro hc
      obtain ⟨hne2, heq⟩ := List.mem_getLast?_eq_getLast (Option.mem_def.mpr hc)
      exact hg.2 (heq ▸ List.getLast_mem hne2)
    | cons y ys =>
      rw [List.getLast?_append_of_ne_nil _ (List.cons_ne_nil y ys), ← hr]
      exact ih hrest

lemma dotMatch_self_append (p x : List Char) : dotMatch p (p ++ x) = true := by
  induction p with
  | nil => rfl
  | cons c cs ih => simp [dotMatch, ih]

lemma dotMatch_append_cancel (a p s : List Char) :
    dotMatch (a ++ p) (a ++ s) = dotMatch p s := by
  induction a with
  | nil => rfl
  | cons c cs ih => simp [dotMatch, ih]

lemma stripAltsAux_id {p1 p2 : List Char} :
    ∀ (fuel : Nat) (s : List Char), s.length ≤ fuel →
      noAltMatches p1 p2 s = true → stripAltsAux p1 p2 fuel s = s := by
  intro fuel
  induction fuel with
  | zero =>
    intro s hlen _
    cases s with
    | nil => rfl
    | cons c rest => simp at hlen
  | succ fuel ih =>
    intro s hlen h
    cases s with
    | nil => rfl
    | cons c rest =>
      simp only [noAltMatches, Bool.and_eq_true, Bool.not_eq_true'] at h
      obtain ⟨hmatch, hrest⟩ := h
      simp only [altMatches, Bool.or_eq_false_iff, decide_eq_false_iff_not] at hmatch
      obtain ⟨⟨⟨h1, h2⟩, h3⟩, h4⟩ := hmatch
      have h4' : ¬(c = '/' ∧ rest = []) := by
        intro hcr
        exact h4 (by rw [hcr.1, hcr.2])
      show (if dotMatch p1 (c :: rest) then _ else _) = c :: rest
      rw [if_neg (by simp [h1]), if_neg (by simp [h2]), if_neg (by simp [h3]), if_neg h4']
      rw [ih rest (by simp at hlen; omega) hrest]

lemma stripAlts_of_noAltMatches {p1 p2 s : List Char}
    (h : noAltMatches p1 p2 s = true) : stripAlts p1 p2 s = s :=
  stripAltsAux_id s.length s (le_refl _) h

lemma splitChar_ne_nil (sep : Char) (s : List Char) : splitChar sep s ≠ [] := by
  cases s with
  | nil => simp [splitChar]
  | cons x rest =>
    simp only [splitChar]
    cases splitChar sep rest with
    | nil => simp
    | cons h t => by_cases hx : x = sep <;> simp [hx]

lemma splitChar_cons (sep x : Char) (rest : List Char) :
    splitChar sep (x :: rest) =
      if x = sep then [] :: splitChar sep rest
      else (x :: (splitChar sep rest).headD []) :: (splitChar sep rest).tail := by
  cases hsp : splitChar sep rest with
  | nil => exact absurd hsp (splitChar_ne_nil sep rest)
  | cons h t =>
    simp only [splitChar, hsp]
    by_cases hx : x = sep <;> simp [hx]

lemma splitChar_seg {c : Char} {g : List Char} (s : List Char) (h : c ∉ g) :
    splitChar c (g ++ c :: s) = g :: splitChar c s := by
  induction g with
  | nil =>
    show splitChar c (c :: s) = [] :: splitChar c s
    rw [splitChar_cons, if_pos rfl]
  | cons x rest ih =>
    have hx : x ≠ c := fun hh => h (hh ▸ List.mem_cons_self x rest)
    have hrest : c ∉ rest := fun hm => h (List.mem_cons_of_mem x hm)
    show splitChar c (x :: (rest ++ c :: s)) = (x :: rest) :: splitChar c s
    rw [splitChar_cons, if_neg hx, ih hrest]
    simp

lemma splitChar_last {c : Char} {g : List Char} (h : c ∉ g) : splitChar c g = [g] := by
  induction g with
  | nil => rfl
  | cons x rest ih =>
    have hx : x ≠ c := fun hh => h (hh ▸ List.mem_cons_self x rest)
    have hrest : c ∉ rest := fun hm => h (List.mem_cons_of_mem x hm)
    rw [splitChar_cons, if_neg hx, ih hrest]
    simp

lemma forkJoinE_error_of_mem {ε α : Type} {rs : List (Except ε α)} {e : ε}
    (h : Except.error e ∈ rs) : ∃ e2, forkJoinE rs = Except.error e2 := by
  induction rs with
  | nil => simp at h
  | cons r rest ih =>
    rcases List.mem_cons.mp h with hh | hh
    · exact ⟨e, by rw [← hh]; rfl⟩
    · cases r with
      | error e3 => exact ⟨e3, rfl⟩
      | ok a =>
        obtain ⟨e2, he2⟩ := ih hh
        exact ⟨e2, by simp [forkJoinE, he2]⟩

lemma forkJoinE_ok_length {ε α : Type} {rs : List (Except ε α)} {vals : List α}
    (h : forkJoinE rs = Except.ok vals) : vals.length = rs.length := by
  induction rs generalizing vals with
  | nil =>
    simp only [forkJoinE, Except.ok.injEq] at h
    subst h
    rfl
  | cons r rest ih =>
    cases r with
    | error e => simp [forkJoinE] at h
    | ok a =>
      simp only [forkJoinE] at h
      cases hrec : forkJoinE rest with
      | error e => rw [hrec] at h; simp at h
      | ok tail =>
        rw [hrec] at h
        simp only [Except.ok.injEq] at h
        subst h
        simp [ih hrec]

lemma stepPanel_fixed {m : PanelMachine} (hu : m.panel.unmounted = true)
    (hp : m.pendingInner = none) (e : PanelEvent) : stepPanel m e = m := by
  cases e with
  | unmountOccurs =>
    cases m with
    | mk panel pending =>
      cases panel with
      | mk a b c d =>
        simp only at hu
        subst hu
        rfl
  | searchEmits r => simp [stepPanel, hu]
  | innerSettles fr =>
    cases m with
    | mk panel pending =>
      simp only at hp
      subst hp
      rfl

lemma stripAlts_strip_root {r rest : List Char} (hr : r ≠ [])
    (hp1 : dotMatch (r ++ indexXml) (r ++ rest) = false)
    (hnm : noAltMatches (r ++ indexXml) r rest = true) :
    stripAlts (r ++ indexXml) r (r ++ rest) = rest := by
  cases r with
  | nil => exact absurd rfl hr
  | cons c rtail =>
    have hp1' : dotMatch (c :: (rtail ++ indexXml)) (c :: (rtail ++ rest)) = false := by
      have hcopy := hp1
      simp only [List.cons_append] at hcopy
      exact hcopy
    have hp2 : dotMatch (c :: rtail) (c :: (rtail ++ rest)) = true := by
      have hcopy := dotMatch_self_append (c :: rtail) rest
      simp only [List.cons_append] at hcopy
      exact hcopy
    show stripAltsAux ((c :: rtail) ++ indexXml) (c :: rtail)
        ((rtail ++ rest).length + 1) (c :: (rtail ++ rest)) = rest
    simp only [stripAltsAux]
    rw [if_neg (by simp [hp1']), if_pos hp2]
    rw [if_neg (by simp : ¬((c :: rtail).isEmpty = true))]
    have hdrop : (rtail ++ rest).drop ((c :: rtail).length - 1) = rest := by
      simp only [List.length_cons, Nat.add_sub_cancel]
      exact List.drop_left rtail rest
    rw [hdrop]
    exact stripAltsAux_id _ rest (by simp) hnm

/-! The claims. -/

/-- C9: `getIndividualPaths("/a/b/c")` returns exactly
`["/a/b/c", "/a/b", "/a"]` in that order, and supplying `rootPath="/a"` leaves
the three-element sequence unchanged because `/a` is its last kept element. -/
theorem getIndividualPaths_three_segments :
    getIndividualPaths "/a/b/c".data none
        = ["/a/b/c".data, "/a/b".data, "/a".data] ∧
      getIndividualPaths "/a/b/c".data (some "/a".data)
        = ["/a/b/c".data, "/a/b".data, "/a".data] := by
  constructor <;> decide

/-- C3 counterexample: for the explicit-form canonical path `/a/index.xml`,
`toImplicit(toExplicit(p))` evaluates to `/a`, which differs from
`toExplicit(p) = /a/index.xml`, so the claimed equation
`toImplicit(toExplicit(p)) == toExplicit(p)` fails. -/
theorem withIndex_roundtrip_counterexample :
    withoutIndex (withIndex "/a/index.xml".data) ≠ withIndex "/a/index.xml".data := by
  decide

/-- C3 (amended): on canonical explicit-form paths `base ++ "/index.xml"` whose
only occurrence of the `/index.xml` substring is the trailing one,
`toExplicit` (`withIndex`) fixes the path, `toImplicit` (`withoutIndex`)
removes exactly the trailing suffix (in general it removes the first
occurrence), `toImplicit(toExplicit(p)) = toImplicit(p)`,
`toExplicit(toImplicit(p)) = toExplicit(p)`, and both maps are idempotent. -/
theorem canonical_form_roundtrip (base : List Char)
    (h : hasSubstr indexXml (base ++ indexXml.dropLast) = false) :
    withIndex (base ++ indexXml) = base ++ indexXml ∧
    withoutIndex (base ++ indexXml) = base ∧
    withoutIndex (withIndex (base ++ indexXml)) = withoutIndex (base ++ indexXml) ∧
    withIndex (withoutIndex (base ++ indexXml)) = withIndex (base ++ indexXml) ∧
    withoutIndex (withoutIndex (base ++ indexXml)) = withoutIndex (base ++ indexXml) ∧
    withIndex (withIndex (base ++ indexXml)) = withIndex (base ++ indexXml) := by
  have hbase : hasSubstr indexXml base = false := hasSubstr_false_of_append_left _ h
  have h2 : withoutIndex (base ++ indexXml) = base := withoutIndex_append_indexXml h
  have h3 : withoutIndex base = base := withoutIndex_of_clean hbase
  have h1 : withIndex (base ++ indexXml) = base ++ indexXml := by
    unfold withIndex
    rw [h2]
  refine ⟨h1, h2, ?_, ?_, ?_, ?_⟩
  · rw [h1]
  · rw [h2]
    unfold withIndex
    rw [h3, h2]
  · rw [h2, h3]
  · rw [h1]
    exact h1

/-- C3 witness: the canonicity hypothesis holds for the concrete base
`/products`, and the amended theorem applies to it. -/
theorem canonical_form_roundtrip_witness :
    hasSubstr indexXml ("/products".data ++ indexXml.dropLast) = false ∧
    withoutIndex ("/products".data ++ indexXml) = "/products".data :=
  ⟨by decide, (canonical_form_roundtrip "/products".data (by decide)).2.1⟩

/-- C1 counterexample: invoking the drag-start handler for a component-typed
item whose hydrated instance is absent from the `ContentInstanceLookup` raises
a `TypeError` (it dereferences `instance.craftercms` on `undefined`); it is not
an ignored no-op. -/
theorem dragStart_missing_instance_throws :
    onDragStart (β := Unit) (fun _ => none) (fun _ => none)
        ⟨"/x".data, COMPONENT⟩ = Except.error JsError.typeError := by
  rfl

/-- C1 (amended): for every component-typed search item whose hydrated content
instance has not yet arrived in the lookup, `onDragStart` fails with a
`TypeError` raised while building the payload, and consequently publishes no
message to the host-to-guest event bus. -/
theorem dragStart_missing_instance {β : Type}
    (contentInstanceLookup : List Char → Option ContentInstance)
    (contentTypesLookup : List Char → Option β) (item : SearchItem)
    (hc : item.itemType = COMPONENT) (hm : contentInstanceLookup item.path = none) :
    onDragStart contentInstanceLookup contentTypesLookup item
      = Except.error JsError.typeError := by
  unfold onDragStart
  rw [if_pos hc, hm]

/-- C1 witness: a concrete component item with an empty lookup satisfies the
hypotheses of the amended drag-start theorem. -/
theorem dragStart_missing_instance_witness :
    onDragStart (β := Unit) (fun _ => none) (fun _ => none) ⟨"/w".data, COMPONENT⟩
      = Except.error JsError.typeError :=
  dragStart_missing_instance (fun _ => none) (fun _ => none) ⟨"/w".data, COMPONENT⟩ rfl rfl

/-- C8 counterexample: a search response with one component-typed item arrives,
the component unmounts, and the secondary `forkJoin` still in flight then
resolves.  At teardown `searchResults` is still empty, yet the late resolution
writes it — `takeUntil(unMount$)` precedes `switchMap` in the pipe, so the
pending content-instance subscription is not torn down and mutates component
state after unmount, contradicting the claim. -/
theorem unmount_inflight_fetch_leak :
    (List.foldl stepPanel
        ⟨⟨none, fun _ => none, none, false⟩, none⟩
        [PanelEvent.searchEmits ⟨[⟨"/c1".data, COMPONENT⟩]⟩,
         PanelEvent.unmountOccurs]).panel.searchResults = none ∧
    (List.foldl stepPanel
        ⟨⟨none, fun _ => none, none, false⟩, none⟩
        [PanelEvent.searchEmits ⟨[⟨"/c1".data, COMPONENT⟩]⟩,
         PanelEvent.unmountOccurs,
         PanelEvent.innerSettles
           (Except.ok [⟨"/c1".data, "ct".data⟩])]).panel.searchResults
      = some ⟨[⟨"/c1".data, COMPONENT⟩]⟩ := by
  exact ⟨rfl, rfl⟩

/-- C8 (amended): after the `useMount` teardown has emitted on `unMount$`, the
outer search subscription delivers nothing — a search response arriving after
unmount causes no state change and starts no secondary fetches — and when no
secondary `forkJoin` is in flight at teardown, no later event of any kind
mutates the panel state.  A secondary `forkJoin` already subscribed before
teardown, however, is not torn down: because `takeUntil(unMount$)` precedes
`switchMap`, its late resolution still invokes the success handler (writing
the combined search result) and its late failure still invokes the error
handler. -/
theorem unmount_teardown_scope (m : PanelMachine)
    (hu : m.panel.unmounted = true) :
    (∀ r, stepPanel m (PanelEvent.searchEmits r) = m) ∧
    (m.pendingInner = none → ∀ evs, List.foldl stepPanel m evs = m) ∧
    (∀ result cs, m.pendingInner = some result →
      (stepPanel m (PanelEvent.innerSettles (Except.ok cs))).panel.searchResults
        = some result) ∧
    (∀ result e, m.pendingInner = some result →
      (stepPanel m (PanelEvent.innerSettles (Except.error e))).panel.error = some e) := by
  refine ⟨?_, ?_, ?_, ?_⟩
  · intro r
    simp [stepPanel, hu]
  · intro hp evs
    induction evs with
    | nil => rfl
    | cons e rest ih =>
      rw [List.foldl_cons, stepPanel_fixed hu hp e, ih]
  · intro result cs hpi
    simp [stepPanel, hpi, applyResponse]
  · intro result e hpi
    simp [stepPanel, hpi, applyResponse]

/-- C8 witness: an unmounted machine with nothing in flight absorbs a
post-unmount search emission and a stray inner settlement unchanged, while an
unmounted machine with a pending secondary `forkJoin` still records the late
resolution's search result. -/
theorem unmount_teardown_scope_witness :
    List.foldl stepPanel ⟨⟨none, fun _ => none, none, true⟩, none⟩
        [PanelEvent.searchEmits ⟨[]⟩,
         PanelEvent.innerSettles (Except.error ⟨500⟩)]
      = ⟨⟨none, fun _ => none, none, true⟩, none⟩ ∧
    (stepPanel ⟨⟨none, fun _ => none, none, true⟩, some ⟨[⟨"/c1".data, COMPONENT⟩]⟩⟩
        (PanelEvent.innerSettles
          (Except.ok [⟨"/c1".data, "ct".data⟩]))).panel.searchResults
      = some ⟨[⟨"/c1".data, COMPONENT⟩]⟩ :=
  ⟨(unmount_teardown_scope ⟨⟨none, fun _ => none, none, true⟩, none⟩ rfl).2.1 rfl
      [PanelEvent.searchEmits ⟨[]⟩, PanelEvent.innerSettles (Except.error ⟨500⟩)],
    (unmount_teardown_scope
        ⟨⟨none, fun _ => none, none, true⟩, some ⟨[⟨"/c1".data, COMPONENT⟩]⟩⟩ rfl).2.2.1
      ⟨[⟨"/c1".data, COMPONENT⟩]⟩ [⟨"/c1".data, "ct".data⟩] rfl⟩

lemma getPathFromPreviewURL_not_mem {s : List Char} {c : Char}
    (hc3 : c ∉ cutAtChar ';' (cutAtChar '#' (cutAtChar '?' s)))
    (hcx : c ∉ xmlExt) (hcw : c ∉ siteWebsite)
    (hcidx : c ∉ ("index.xml".data : List Char)) (hcsl : c ≠ '/') :
    c ∉ getPathFromPreviewURL s := by
  have hc4 : c ∉ replaceFirst (cutAtChar ';' (cutAtChar '#' (cutAtChar '?' s))) htmlExt xmlExt :=
    fun hm => (replaceFirst_mem hm).elim (fun hh => hc3 hh) (fun hh => hcx hh)
  simp only [getPathFromPreviewURL]
  intro hmem
  rcases List.mem_append.mp hmem with hmem | hmem
  · exact hcw hmem
  · by_cases hx : hasSubstr xmlExt
        (replaceFirst (cutAtChar ';' (cutAtChar '#' (cutAtChar '?' s))) htmlExt xmlExt) = true
    · rw [if_pos hx] at hmem
      exact hc4 hmem
    · rw [if_neg hx] at hmem
      rcases List.mem_append.mp hmem with hmem | hmem
      · by_cases hsl : (replaceFirst (cutAtChar ';' (cutAtChar '#' (cutAtChar '?' s)))
            htmlExt xmlExt).getLast? = some '/'
        · rw [if_pos hsl] at hmem
          exact hc4 hmem
        · rw [if_neg hsl] at hmem
          rcases List.mem_append.mp hmem with hmem | hmem
          · exact hc4 hmem
          · simp at hmem
            exact hcsl hmem
      · exact hcidx hmem

/-- C4 counterexample: on the input `"?"` the query marker sits at index 0, the
`indexOf > 0` guards skip the strip, and the returned path
`/site/website?/index.xml` still contains `'?'`, contradicting the claim that
the result never contains `'?'`, `'#'`, or `';'`. -/
theorem getPathFromPreviewURL_counterexample :
    getPathFromPreviewURL "?".data = "/site/website?/index.xml".data ∧
      '?' ∈ getPathFromPreviewURL "?".data := by
  constructor <;> decide

/-- C4 (amended): `getPathFromPreviewURL` is total; the result always carries
the fixed `/site/website` prefix and always contains `.xml` somewhere; the
`?`/`#`/`;` strips act only on occurrences at positive indices, so whenever the
input does not begin with one of those characters the result contains none of
them; and the rewrite changes the first `.html` occurrence to `.xml` (for an
input that ends in its only `.html` and has no `?`/`#`/`;` the result is
exactly the prefixed path with `.xml` substituted, nothing appended). -/
theorem getPathFromPreviewURL_spec (s : List Char) :
    (∃ t, getPathFromPreviewURL s = siteWebsite ++ t) ∧
    hasSubstr xmlExt (getPathFromPreviewURL s) = true ∧
    (s.head? ≠ some '?' → s.head? ≠ some '#' → s.head? ≠ some ';' →
      '?' ∉ getPathFromPreviewURL s ∧ '#' ∉ getPathFromPreviewURL s ∧
        ';' ∉ getPathFromPreviewURL s) ∧
    (∀ a, s = a ++ htmlExt → '?' ∉ s → '#' ∉ s → ';' ∉ s →
      hasSubstr htmlExt (a ++ htmlExt.dropLast) = false →
      getPathFromPreviewURL s = siteWebsite ++ (a ++ xmlExt)) := by
  refine ⟨⟨_, rfl⟩, ?_, ?_, ?_⟩
  · simp only [getPathFromPreviewURL]
    by_cases hx : hasSubstr xmlExt
        (replaceFirst (cutAtChar ';' (cutAtChar '#' (cutAtChar '?' s))) htmlExt xmlExt) = true
    · rw [if_pos hx]
      exact hasSubstr_append_right siteWebsite hx
    · rw [if_neg hx]
      exact hasSubstr_append_right siteWebsite
        (hasSubstr_append_right _ (by decide))
  · intro hq hh hsc
    have h1q : '?' ∉ cutAtChar '?' s := cutAtChar_not_mem_self hq
    have hhead1 : (cutAtChar '?' s).head? = s.head? := cutAtChar_head s
    have h2h : '#' ∉ cutAtChar '#' (cutAtChar '?' s) :=
      cutAtChar_not_mem_self (by rw [hhead1]; exact hh)
    have hhead2 : (cutAtChar '#' (cutAtChar '?' s)).head? = s.head? := by
      rw [cutAtChar_head, hhead1]
    have h3s : ';' ∉ cutAtChar ';' (cutAtChar '#' (cutAtChar '?' s)) :=
      cutAtChar_not_mem_self (by rw [hhead2]; exact hsc)
    have h3q : '?' ∉ cutAtChar ';' (cutAtChar '#' (cutAtChar '?' s)) :=
      fun hm => h1q (cutAtChar_subset _ (cutAtChar_subset _ hm))
    have h3h : '#' ∉ cutAtChar ';' (cutAtChar '#' (cutAtChar '?' s)) :=
      fun hm => h2h (cutAtChar_subset _ hm)
    exact ⟨getPathFromPreviewURL_not_mem h3q (by decide) (by decide) (by decide) (by decide),
      getPathFromPreviewURL_not_mem h3h (by decide) (by decide) (by decide) (by decide),
      getPathFromPreviewURL_not_mem h3s (by decide) (by decide) (by decide) (by decide)⟩
  · intro a hsa hq hh hsc hfirst
    subst hsa
    have e3 : cutAtChar ';' (cutAtChar '#' (cutAtChar '?' (a ++ htmlExt))) = a ++ htmlExt := by
      rw [cutAtChar_of_not_mem hq, cutAtChar_of_not_mem hh, cutAtChar_of_not_mem hsc]
    have e4 : replaceFirst (a ++ htmlExt) htmlExt xmlExt = a ++ xmlExt := by
      have hrw := replaceFirst_first_occurrence a [] xmlExt (by decide) hfirst
      simpa using hrw
    have e5 : hasSubstr xmlExt (a ++ xmlExt) = true :=
      hasSubstr_append_right a (by decide)
    simp only [getPathFromPreviewURL]
    rw [e3, e4, if_pos e5]

/-- C4 witness: the rendered page URL `/about-us.html` satisfies the
hypotheses of the rewrite conjunct and maps to
`/site/website/about-us.xml`. -/
theorem getPathFromPreviewURL_spec_witness :
    getPathFromPreviewURL "/about-us.html".data
      = siteWebsite ++ ("/about-us".data ++ xmlExt) :=
  (getPathFromPreviewURL_spec "/about-us.html".data).2.2.2 "/about-us".data
    (by decide) (by decide) (by decide) (by decide) (by decide)

/-- C6: the orchestrator issues exactly one secondary `getContentInstance`
fetch per component-typed item of a search response.  Zero component items
short-circuit: no fetch is issued and the result is published with a null
`contentInstances` payload, leaving the instance lookup untouched.  With
`n ≥ 1` component items exactly `n` fetches are issued, and the combined
`{ result, contentInstances }` pair is produced precisely when `forkJoin` has
resolved all of them, carrying exactly `n` instances. -/
theorem onSearch_secondary_fetch_count (result : SearchResultModel)
    (fetch : List Char → Except ApiError ContentInstance) (st : PanelState) :
    ((componentItems result.items).length = 0 →
      secondaryRequestPaths result.items = [] ∧
      onSearchCombine result fetch = Except.ok (result, none) ∧
      (applyResponse st (Except.ok (result, none))).searchResults = some result ∧
      (applyResponse st (Except.ok (result, none))).contentInstanceLookup
        = st.contentInstanceLookup) ∧
    (1 ≤ (componentItems result.items).length →
      (secondaryRequestPaths result.items).length = (componentItems result.items).length ∧
      (∀ cs, onSearchCombine result fetch = Except.ok (result, some cs) ↔
        forkJoinE ((secondaryRequestPaths result.items).map fetch) = Except.ok cs) ∧
      (∀ cs, onSearchCombine result fetch = Except.ok (result, some cs) →
        cs.length = (componentItems result.items).length)) := by
  constructor
  · intro h0
    have hci : componentItems result.items = [] := List.length_eq_zero.mp h0
    have hpaths : secondaryRequestPaths result.items = [] := by
      simp [secondaryRequestPaths, hci]
    refine ⟨hpaths, ?_, rfl, rfl⟩
    simp [onSearchCombine, hpaths]
  · intro h1
    have hlenp : (secondaryRequestPaths result.items).length
        = (componentItems result.items).length := by
      simp [secondaryRequestPaths]
    have hne : ((secondaryRequestPaths result.items).map fetch).length ≠ 0 := by
      simp only [List.length_map, hlenp]
      omega
    refine ⟨hlenp, ?_, ?_⟩
    · intro cs
      cases hfj : forkJoinE ((secondaryRequestPaths result.items).map fetch) with
      | error e =>
        have hco : onSearchCombine result fetch = Except.error e := by
          simp only [onSearchCombine]
          rw [if_pos hne, hfj]
        rw [hco]
        simp
      | ok tail =>
        have hco : onSearchCombine result fetch = Except.ok (result, some tail) := by
          simp only [onSearchCombine]
          rw [if_pos hne, hfj]
        rw [hco]
        simp
    · intro cs hok
      cases hfj : forkJoinE ((secondaryRequestPaths result.items).map fetch) with
      | error e =>
        have hco : onSearchCombine result fetch = Except.error e := by
          simp only [onSearchCombine]
          rw [if_pos hne, hfj]
        rw [hco] at hok
        simp at hok
      | ok tail =>
        have hco : onSearchCombine result fetch = Except.ok (result, some tail) := by
          simp only [onSearchCombine]
          rw [if_pos hne, hfj]
        rw [hco] at hok
        simp only [Except.ok.injEq, Prod.mk.injEq, Option.some.injEq] at hok
        obtain ⟨-, hcs⟩ := hok
        subst hcs
        have hlen2 := forkJoinE_ok_length hfj
        rw [List.length_map, hlenp] at hlen2
        exact hlen2

/-- C6 witness: a response whose single item is image-typed triggers no fetch
and publishes a null payload, while a response with two component items issues
two fetches and publishes both resolved instances. -/
theorem onSearch_secondary_fetch_count_witness :
    onSearchCombine ⟨[⟨"/img.png".data, "Image".data⟩]⟩ (fun _ => Except.error ⟨500⟩)
        = Except.ok (⟨[⟨"/img.png".data, "Image".data⟩]⟩, none) ∧
    onSearchCombine ⟨[⟨"/c1".data, COMPONENT⟩, ⟨"/c2".data, COMPONENT⟩]⟩
        (fun p => Except.ok ⟨p, "ct".data⟩)
        = Except.ok (⟨[⟨"/c1".data, COMPONENT⟩, ⟨"/c2".data, COMPONENT⟩]⟩,
            some [⟨"/c1".data, "ct".data⟩, ⟨"/c2".data, "ct".data⟩]) := by
  constructor
  · exact ((onSearch_secondary_fetch_count ⟨[⟨"/img.png".data, "Image".data⟩]⟩
      (fun _ => Except.error ⟨500⟩) ⟨none, fun _ => none, none, false⟩).1 (by decide)).2.1
  · exact (((onSearch_secondary_fetch_count ⟨[⟨"/c1".data, COMPONENT⟩, ⟨"/c2".data, COMPONENT⟩]⟩
      (fun p => Except.ok ⟨p, "ct".data⟩) ⟨none, fun _ => none, none, false⟩).2
      (by decide)).2.1 [⟨"/c1".data, "ct".data⟩, ⟨"/c2".data, "ct".data⟩]).mpr rfl

/-- C7: if any one of the secondary content-instance fetches fails, the whole
combined query fails: `forkJoin` yields an error, no partial
`{ result, contentInstances }` pair reaches rendering state (search results and
instance lookup stay as they were), and the failure lands in the orchestrator's
error state via the subscribe error handler rather than escaping uncaught. -/
theorem onSearch_secondary_failure (result : SearchResultModel)
    (fetch : List Char → Except ApiError ContentInstance) (st : PanelState)
    (p : List Char) (e : ApiError)
    (hp : p ∈ secondaryRequestPaths result.items) (he : fetch p = Except.error e) :
    ∃ e2, onSearchCombine result fetch = Except.error e2 ∧
      (applyResponse st (onSearchCombine result fetch)).searchResults = st.searchResults ∧
      (applyResponse st (onSearchCombine result fetch)).contentInstanceLookup
        = st.contentInstanceLookup ∧
      (applyResponse st (onSearchCombine result fetch)).error = some e2 := by
  have hmem : Except.error e ∈ (secondaryRequestPaths result.items).map fetch := by
    rw [← he]
    exact List.mem_map_of_mem fetch hp
  obtain ⟨e2, he2⟩ := forkJoinE_error_of_mem hmem
  have hne : ((secondaryRequestPaths result.items).map fetch).length ≠ 0 := by
    have hnn : (secondaryRequestPaths result.items).map fetch ≠ [] :=
      List.ne_nil_of_mem hmem
    simpa [List.length_eq_zero] using hnn
  have hco : onSearchCombine result fetch = Except.error e2 := by
    simp only [onSearchCombine]
    rw [if_pos hne, he2]
  refine ⟨e2, hco, ?_, ?_, ?_⟩ <;> rw [hco] <;> rfl

/-- C7 witness: with a single component item whose fetch fails with error 502,
the combined query fails and the error state carries that failure. -/
theorem onSearch_secondary_failure_witness :
    onSearchCombine ⟨[⟨"/c1".data, COMPONENT⟩]⟩ (fun _ => Except.error ⟨502⟩)
        = Except.error ⟨502⟩ ∧
      (applyResponse ⟨none, fun _ => none, none, false⟩
          (onSearchCombine ⟨[⟨"/c1".data, COMPONENT⟩]⟩ (fun _ => Except.error ⟨502⟩))).error
        = some ⟨502⟩ := by
  obtain ⟨e2, h1, -, -, h4⟩ := onSearch_secondary_failure ⟨[⟨"/c1".data, COMPONENT⟩]⟩
    (fun _ => Except.error ⟨502⟩) ⟨none, fun _ => none, none, false⟩ "/c1".data ⟨502⟩
    (by decide) rfl
  have hcalc : onSearchCombine ⟨[⟨"/c1".data, COMPONENT⟩]⟩ (fun _ => Except.error ⟨502⟩)
      = Except.error ⟨502⟩ := rfl
  rw [h1] at hcalc
  injection hcalc with he2
  subst he2
  exact ⟨h1, h4⟩

/-- C2 counterexample: with the index storing the root only under the implicit
form `/a` and the `rootPath` argument given in the explicit form
`/a/index.xml`, the single returned slot is absent instead of the stored root
item: the fallback lookup `items[root]` uses the argument as given rather than
its implicit form, so the claimed either-form tolerance fails for this
combination. -/
theorem itemsFromPath_explicit_root_counterexample :
    itemsFromPath "/a/index.xml".data "/a/index.xml".data
        (fun p => if p = "/a".data then some 0 else none) = [none] := by
  rfl

/-- C2 (amended): `itemsFromPath(rootPath, rootPath, index)` always returns a
one-element chain whose element is the index entry under the explicit
(`withIndex`) form when present, and otherwise the entry under the rootPath
exactly as given; in particular, for a rootPath in implicit canonical form and
a non-empty index containing the root item under either canonical form, that
element is the root item. -/
theorem itemsFromPath_root_chain {α : Type} (root : List Char)
    (items : List Char → Option α) (it : α)
    (_h1 : hasSubstr indexXml root = false)
    (h2 : items (withIndex root) = some it ∨
      (items (withIndex root) = none ∧ items root = some it)) :
    itemsFromPath root root items = [some it] ∧
    ∀ (root2 : List Char) (items2 : List Char → Option α),
      itemsFromPath root2 root2 items2
        = [coalesce (items2 (withIndex root2)) (items2 root2)] := by
  have hgen : ∀ (root2 : List Char) (items2 : List Char → Option α),
      itemsFromPath root2 root2 items2
        = [coalesce (items2 (withIndex root2)) (items2 root2)] := by
    intro root2 items2
    simp [itemsFromPath]
  refine ⟨?_, hgen⟩
  rw [hgen root items]
  rcases h2 with h2 | ⟨h2a, h2b⟩
  · rw [show coalesce (items (withIndex root)) (items root) = some it from by
      rw [h2]; rfl]
  · rw [show coalesce (items (withIndex root)) (items root) = some it from by
      rw [h2a, h2b]; rfl]

/-- C2 witness: for the implicit-form root `/site/website` with the root item
stored under the explicit form, the chain is exactly that item. -/
theorem itemsFromPath_root_chain_witness :
    itemsFromPath "/site/website".data "/site/website".data
        (fun p => if p = withIndex "/site/website".data then some 3 else none)
      = [some 3] :=
  (itemsFromPath_root_chain "/site/website".data
      (fun p => if p = withIndex "/site/website".data then some 3 else none) 3
      (by decide) (Or.inl (by decide))).1

/-- C10: for every explicit-form page path `/site/website` ++ s ++
`/index.xml`, where s is a possibly-empty concatenation of `/`-separated
nonempty segments containing no occurrence of `?`, `#`, `;`, `.html`, `.xml`
or `/site/website`, the preview-URL conversion round-trips:
`getPathFromPreviewURL (getPreviewURLFromPath p) = p`. -/
theorem previewURL_roundTrip (segs : List (List Char))
    (hsegs : ∀ g ∈ segs, g ≠ [] ∧ '/' ∉ g)
    (hq : '?' ∉ joinSegs segs) (hh : '#' ∉ joinSegs segs) (hsc : ';' ∉ joinSegs segs)
    (hhtml : hasSubstr htmlExt (joinSegs segs) = false)
    (hxml : hasSubstr xmlExt (joinSegs segs) = false)
    (_hsite : hasSubstr siteWebsite (joinSegs segs) = false) :
    getPathFromPreviewURL (getPreviewURLFromPath
        ((siteWebsite ++ joinSegs segs) ++ indexXml))
      = (siteWebsite ++ joinSegs segs) ++ indexXml := by
  have hwo : withoutIndex ((siteWebsite ++ joinSegs segs) ++ indexXml)
      = siteWebsite ++ joinSegs segs :=
    withoutIndex_append_indexXml (no_indexXml_before_end hxml)
  have hurl : getPreviewURLFromPath ((siteWebsite ++ joinSegs segs) ++ indexXml)
      = joinSegs segs := by
    unfold getPreviewURLFromPath
    rw [hwo]
    have hstart := replaceFirst_at_start (joinSegs segs) []
      (by decide : siteWebsite ≠ [])
    simpa using hstart
  rw [hurl]
  have hq4 : cutAtChar ';' (cutAtChar '#' (cutAtChar '?' (joinSegs segs)))
      = joinSegs segs := by
    rw [cutAtChar_of_not_mem hq, cutAtChar_of_not_mem hh, cutAtChar_of_not_mem hsc]
  have hrep : replaceFirst (joinSegs segs) htmlExt xmlExt = joinSegs segs :=
    replaceFirst_of_not_hasSubstr _ hhtml
  have hlast : (joinSegs segs).getLast? ≠ some '/' := joinSegs_getLast hsegs
  simp only [getPathFromPreviewURL]
  rw [hq4, hrep, if_neg (by simp [hxml]), if_neg hlast]
  have hfin : (joinSegs segs ++ ['/']) ++ "index.xml".data = joinSegs segs ++ indexXml := by
    rw [List.append_assoc]
    rfl
  rw [hfin, ← List.append_assoc]

/-- C10 witness: the two-segment page path `/site/website/a/b/index.xml`
satisfies the segment conditions and round-trips through the preview URL
conversion. -/
theorem previewURL_roundTrip_witness :
    getPathFromPreviewURL (getPreviewURLFromPath
        ((siteWebsite ++ joinSegs [['a'], ['b']]) ++ indexXml))
      = (siteWebsite ++ joinSegs [['a'], ['b']]) ++ indexXml :=
  previewURL_roundTrip [['a'], ['b']] (by decide) (by decide) (by decide) (by decide)
    (by decide) (by decide) (by decide)

/-- C5: for a target path three nonempty slash-free segments below an
implicit-canonical, regex-safe root, with the root-relative part matching no
alternative of the strip regex (the interpolated roots and the `/index.xml`
alternative all matching with wildcard dots, as the template literal leaves
them), `itemsFromPath` returns a four-element chain —
the root item followed by the item of each accumulated prefix, each looked up
under either canonical storage form — and removing the single item of level
`k ∈ {1,2,3}` from the index (both canonical key forms gone, every other key
unchanged) yields an absent slot at exactly position `k` with all other
positions unchanged. -/
theorem itemsFromPath_three_segments {α : Type} (r s1 s2 s3 : List Char)
    (items items2 : List Char → Option α) (a0 a1 a2 a3 : α) (k : Nat)
    (hr : r ≠ [])
    (hrI : hasSubstr indexXml r = false)
    (_hsafe : regexSafe r = true)
    (_hs1 : s1 ≠ []) (_hs2 : s2 ≠ []) (_hs3 : s3 ≠ [])
    (hn1 : '/' ∉ s1) (hn2 : '/' ∉ s2) (hn3 : '/' ∉ s3)
    (hnm : noAltMatches (withIndex r) (withoutIndex r)
      ('/' :: (s1 ++ '/' :: (s2 ++ '/' :: s3))) = true)
    (hl0 : coalesce (items (withIndex r)) (items r) = some a0)
    (hl1 : coalesce (items (r ++ '/' :: s1)) (items (withIndex (r ++ '/' :: s1))) = some a1)
    (hl2 : coalesce (items ((r ++ '/' :: s1) ++ '/' :: s2))
      (items (withIndex ((r ++ '/' :: s1) ++ '/' :: s2))) = some a2)
    (hl3 : coalesce (items (((r ++ '/' :: s1) ++ '/' :: s2) ++ '/' :: s3))
      (items (withIndex (((r ++ '/' :: s1) ++ '/' :: s2) ++ '/' :: s3))) = some a3)
    (hk : k = 1 ∨ k = 2 ∨ k = 3)
    (hrm0 : items2 (withIndex r) = items (withIndex r) ∧ items2 r = items r)
    (hrm1 : if k = 1
      then items2 (r ++ '/' :: s1) = none ∧ items2 (withIndex (r ++ '/' :: s1)) = none
      else items2 (r ++ '/' :: s1) = items (r ++ '/' :: s1) ∧
        items2 (withIndex (r ++ '/' :: s1)) = items (withIndex (r ++ '/' :: s1)))
    (hrm2 : if k = 2
      then items2 ((r ++ '/' :: s1) ++ '/' :: s2) = none ∧
        items2 (withIndex ((r ++ '/' :: s1) ++ '/' :: s2)) = none
      else items2 ((r ++ '/' :: s1) ++ '/' :: s2) = items ((r ++ '/' :: s1) ++ '/' :: s2) ∧
        items2 (withIndex ((r ++ '/' :: s1) ++ '/' :: s2))
          = items (withIndex ((r ++ '/' :: s1) ++ '/' :: s2)))
    (hrm3 : if k = 3
      then items2 (((r ++ '/' :: s1) ++ '/' :: s2) ++ '/' :: s3) = none ∧
        items2 (withIndex (((r ++ '/' :: s1) ++ '/' :: s2) ++ '/' :: s3)) = none
      else items2 (((r ++ '/' :: s1) ++ '/' :: s2) ++ '/' :: s3)
          = items (((r ++ '/' :: s1) ++ '/' :: s2) ++ '/' :: s3) ∧
        items2 (withIndex (((r ++ '/' :: s1) ++ '/' :: s2) ++ '/' :: s3))
          = items (withIndex (((r ++ '/' :: s1) ++ '/' :: s2) ++ '/' :: s3))) :
    itemsFromPath (r ++ '/' :: (s1 ++ '/' :: (s2 ++ '/' :: s3))) r items
        = [some a0, some a1, some a2, some a3] ∧
    itemsFromPath (r ++ '/' :: (s1 ++ '/' :: (s2 ++ '/' :: s3))) r items2
        = [some a0, some a1, some a2, some a3].set k none := by
  set rest := '/' :: (s1 ++ '/' :: (s2 ++ '/' :: s3)) with hrest
  have hwo : withoutIndex r = r := withoutIndex_of_clean hrI
  have hwi : withIndex r = r ++ indexXml := by
    unfold withIndex
    rw [hwo]
  have hnm0 := hnm
  rw [hrest] at hnm0
  simp only [noAltMatches, Bool.and_eq_true, Bool.not_eq_true'] at hnm0
  have haltm := hnm0.1
  simp only [altMatches, Bool.or_eq_false_iff, decide_eq_false_iff_not] at haltm
  have hdot0 : dotMatch indexXml ('/' :: (s1 ++ '/' :: (s2 ++ '/' :: s3))) = false :=
    haltm.1.2
  have hne1 : r ++ rest ≠ withIndex r := by
    rw [hwi]
    intro heq
    have h1 := List.append_cancel_left heq
    rw [hrest] at h1
    rw [h1] at hdot0
    exact absurd hdot0 (by decide)
  have hne2 : r ++ rest ≠ r := by
    intro heq
    have h0 : r ++ rest = r ++ [] := by rw [heq, List.append_nil]
    have h1 := List.append_cancel_left h0
    rw [hrest] at h1
    exact List.cons_ne_nil _ _ h1
  have hcond : ¬(r ++ rest = withIndex r ∨ r ++ rest = r) := by
    rintro (h | h)
    · exact hne1 h
    · exact hne2 h
  have hstrip : stripAlts (withIndex r) (withoutIndex r) (r ++ rest) = rest := by
    rw [hwo, hwi]
    apply stripAlts_strip_root hr
    · rw [dotMatch_append_cancel r indexXml rest]
      rw [hrest]
      exact hdot0
    · have hnm2 := hnm
      rw [hwi, hwo] at hnm2
      exact hnm2
  have hsplit : splitChar '/' rest = [[], s1, s2, s3] := by
    rw [hrest]
    have e1 : splitChar '/' ('/' :: (s1 ++ '/' :: (s2 ++ '/' :: s3)))
        = [] :: splitChar '/' (s1 ++ '/' :: (s2 ++ '/' :: s3)) := by
      rw [splitChar_cons, if_pos rfl]
    rw [e1, splitChar_seg _ hn1, splitChar_seg _ hn2, splitChar_last hn3]
  have hchar : ∀ items3 : List Char → Option α,
      itemsFromPath (r ++ rest) r items3
        = [coalesce (items3 (withIndex r)) (items3 r),
           coalesce (items3 (r ++ '/' :: s1)) (items3 (withIndex (r ++ '/' :: s1))),
           coalesce (items3 ((r ++ '/' :: s1) ++ '/' :: s2))
             (items3 (withIndex ((r ++ '/' :: s1) ++ '/' :: s2))),
           coalesce (items3 (((r ++ '/' :: s1) ++ '/' :: s2) ++ '/' :: s3))
             (items3 (withIndex (((r ++ '/' :: s1) ++ '/' :: s2) ++ '/' :: s3)))] := by
    intro items3
    simp only [itemsFromPath]
    rw [if_neg hcond, hstrip, hsplit]
    rw [show ([[], s1, s2, s3] : List (List Char)).drop 1 = [s1, s2, s3] from rfl]
    rw [hwo]
    simp only [accumLookup]
  constructor
  · rw [hchar items, hl0, hl1, hl2, hl3]
  · rw [hchar items2, hrm0.1, hrm0.2, hl0]
    rcases hk with rfl | rfl | rfl
    · rw [if_pos rfl] at hrm1
      rw [if_neg (by decide)] at hrm2
      rw [if_neg (by decide)] at hrm3
      rw [hrm1.1, hrm1.2, hrm2.1, hrm2.2, hrm3.1, hrm3.2, hl2, hl3]
      rfl
    · rw [if_neg (by decide)] at hrm1
      rw [if_pos rfl] at hrm2
      rw [if_neg (by decide)] at hrm3
      rw [hrm1.1, hrm1.2, hrm2.1, hrm2.2, hrm3.1, hrm3.2, hl1, hl3]
      rfl
    · rw [if_neg (by decide)] at hrm1
      rw [if_neg (by decide)] at hrm2
      rw [if_pos rfl] at hrm3
      rw [hrm1.1, hrm1.2, hrm2.1, hrm2.2, hrm3.1, hrm3.2, hl1, hl2]
      rfl

/-- C5 witness: for the root `/site/website` and segments `a`, `b`, `c`, with
levels stored under mixed canonical forms, the chain is the four stored items;
removing level 2 (both key forms) blanks exactly slot 2. -/
theorem itemsFromPath_three_segments_witness :
    itemsFromPath
        ("/site/website".data ++ '/' :: ("a".data ++ '/' :: ("b".data ++ '/' :: "c".data)))
        "/site/website".data
        (fun p =>
          if p = "/site/website/index.xml".data then some 0
          else if p = "/site/website/a".data then some 1
          else if p = "/site/website/a/b/index.xml".data then some 2
          else if p = "/site/website/a/b/c".data then some 3
          else none)
      = [some 0, some 1, some 2, some 3] ∧
    itemsFromPath
        ("/site/website".data ++ '/' :: ("a".data ++ '/' :: ("b".data ++ '/' :: "c".data)))
        "/site/website".data
        (fun p =>
          if p = "/site/website/a/b".data ∨ p = "/site/website/a/b/index.xml".data then none
          else if p = "/site/website/index.xml".data then some 0
          else if p = "/site/website/a".data then some 1
          else if p = "/site/website/a/b/index.xml".data then some 2
          else if p = "/site/website/a/b/c".data then some 3
          else none)
      = [some 0, some 1, some 2, some 3].set 2 none :=
  itemsFromPath_three_segments "/site/website".data "a".data "b".data "c".data
    (fun p =>
      if p = "/site/website/index.xml".data then some 0
      else if p = "/site/website/a".data then some 1
      else if p = "/site/website/a/b/index.xml".data then some 2
      else if p = "/site/website/a/b/c".data then some 3
      else none)
    (fun p =>
      if p = "/site/website/a/b".data ∨ p = "/site/website/a/b/index.xml".data then none
      else if p = "/site/website/index.xml".data then some 0
      else if p = "/site/website/a".data then some 1
      else if p = "/site/website/a/b/index.xml".data then some 2
      else if p = "/site/website/a/b/c".data then some 3
      else none)
    0 1 2 3 2
    (by decide) (by decide) (by decide) (by decide) (by decide) (by decide)
    (by decide) (by decide) (by decide) (by decide)
    (by decide) (by decide) (by decide) (by decide)
    (by decide)
    (by exact ⟨by decide, by decide⟩)
    (by rw [if_neg (by decide)]; exact ⟨by decide, by decide⟩)
    (by rw [if_pos rfl]; exact ⟨by decide, by decide⟩)
    (by rw [if_neg (by decide)]; exact ⟨by decide, by decide⟩)
